import Mathlib

set_option autoImplicit false

namespace FormApp

/-! Model of the client/server form logic of the work-order form application:
the validation utilities (`src/lib/utils.ts`), the form state store
(`src/lib/stores.ts`), the dynamic form composer (`DynamicForm.svelte`)
and the submission endpoint (`src/routes/api/submit/+server.ts`).
JavaScript records (`Record<string, string>`) are modelled as association
lists with JS object-literal update semantics (replace an existing key in
place, append new keys at the end); an `undefined` lookup is `Option.none`.
Field values are modelled as strings (`value.toString()` is the identity and
JS truthiness of a string is non-emptiness).  `Date.now()`/`Math.random()`
based identifier generation is modelled by a monotone clock that hands out
fresh natural numbers. -/

/-- The whitespace characters matched by the JavaScript regex class `\s`. -/
def jsWhitespace : List Char :=
  [' ', '\t', '\n', '\r', Char.ofNat 0x0b, Char.ofNat 0x0c, Char.ofNat 0xa0,
   Char.ofNat 0x1680, Char.ofNat 0x2000, Char.ofNat 0x2001, Char.ofNat 0x2002,
   Char.ofNat 0x2003, Char.ofNat 0x2004, Char.ofNat 0x2005, Char.ofNat 0x2006,
   Char.ofNat 0x2007, Char.ofNat 0x2008, Char.ofNat 0x2009, Char.ofNat 0x200a,
   Char.ofNat 0x2028, Char.ofNat 0x2029, Char.ofNat 0x202f, Char.ofNat 0x205f,
   Char.ofNat 0x3000, Char.ofNat 0xfeff]

/-- Membership in the JS `\s` class. -/
def isJsSpace (c : Char) : Bool := jsWhitespace.contains c

/-- Test `value.toString().trim() === ''`: every character is whitespace
(true in particular for the empty string). -/
def isBlank (s : String) : Bool := s.toList.all isJsSpace

/-! ### Association-list maps (JS plain objects used as string maps) -/

/-- Model of `{ ...m, [k]: v }`: replace the first binding of `k` in place,
otherwise append the new binding at the end (JS objects keep the original
insertion position of an overwritten key). -/
def setKey {α : Type} : List (String × α) → String → α → List (String × α)
  | [], k, v => [(k, v)]
  | p :: ps, k, v => if p.1 == k then (k, v) :: ps else p :: setKey ps k v

/-- Model of `delete m[k]`. -/
def delKey {α : Type} : List (String × α) → String → List (String × α)
  | [], _ => []
  | p :: ps, k => if p.1 == k then delKey ps k else p :: delKey ps k

/-- Model of `m[k]` (`none` is JS `undefined`). -/
def lookupKey {α : Type} : List (String × α) → String → Option α
  | [], _ => none
  | p :: ps, k => if p.1 == k then some p.2 else lookupKey ps k

/-! ### Data model (`src/lib/types.ts`) -/

/-- The `type` enum of `FormFieldSchema`. -/
inductive FieldType
  | text
  | email
  | phone
  | textarea
  | select
  | checkbox
deriving DecidableEq

/-- The optional `validation` record of a form field.  The `pattern` string,
which the code turns into a regex with `new RegExp(pattern)` and applies with
`.test`, is modelled extensionally as the Boolean test it denotes. -/
structure ValidationRule where
  min : Option Int := none
  max : Option Int := none
  pattern : Option (String → Bool) := none

/-- One entry of `FormConfig.fields` (`FormFieldSchema`). -/
structure FormField where
  id : String := ""
  name : String
  label : String
  ftype : FieldType
  required : Bool
  placeholder : Option String := none
  options : Option (List String) := none
  validation : Option ValidationRule := none

/-- The `layout` record of a form configuration.  The presentation-only
`spacing` enum is not consulted by any modelled operation and is omitted. -/
structure Layout where
  columns : Nat := 1
  fieldOrder : List String

/-- The `settings` record of a form configuration (presentation-only members
such as `confirmation_message` and `redirect_url` are omitted: no modelled
operation reads them). -/
structure Settings where
  show_progress : Bool := false
  auto_save : Bool := true

/-- A form configuration (`FormConfigSchema`).  The presentation-only
`colors` and `logo_url` members are omitted: no modelled operation reads
them. -/
structure FormConfig where
  id : String
  org_id : String := ""
  slug : String := ""
  org_code : String := ""
  fields : List FormField
  layout : Option Layout := none
  settings : Option Settings := none

/-! ### Regex tests used by the validators -/

/-- Membership in the character class `[^\s@]` of the email regex. -/
def goodEmailChar (c : Char) : Bool := !(isJsSpace c) && !(c == '@')

/-- Split a character list at the first occurrence of `ch`, returning the
(`ch`-free) prefix and the suffix. -/
def splitAtChar (ch : Char) : List Char → Option (List Char × List Char)
  | [] => none
  | c :: cs =>
    if c == ch then some ([], cs)
    else
      match splitAtChar ch cs with
      | some (a, b) => some (c :: a, b)
      | none => none

/-- Whether a character list can be written `b ++ '.' :: c` with `c ≠ []`. -/
def tailDotSplit : List Char → Bool
  | [] => false
  | c :: cs => (c == '.' && !cs.isEmpty) || tailDotSplit cs

/-- Whether a character list can be written `b ++ '.' :: c` with both `b`
and `c` nonempty. -/
def interiorDotSplit : List Char → Bool
  | [] => false
  | _ :: cs => tailDotSplit cs

/-- Test of the anchored email regex of the validators:
a full match of `[^\s@]+` `@` `[^\s@]+` `\.` `[^\s@]+`, i.e. a decomposition
`A ++ '@' :: B ++ '.' :: C` with `A`, `B`, `C` nonempty and free of
whitespace and `@`. -/
def emailTest (s : String) : Bool :=
  match splitAtChar '@' s.toList with
  | none => false
  | some (a, rest) =>
    !a.isEmpty && a.all goodEmailChar && rest.all goodEmailChar &&
      interiorDotSplit rest

/-- Membership in the character class `[\d\s\-\+\(\)]` of the phone regex. -/
def phoneChar (c : Char) : Bool :=
  c.isDigit || isJsSpace c || c == '-' || c == '+' || c == '(' || c == ')'

/-- Test of the anchored phone regex `[\d\s\-\+\(\)]+`: nonempty and every
character in the class. -/
def phoneTest (s : String) : Bool :=
  !s.toList.isEmpty && s.toList.all phoneChar

/-! ### Validation (`validateField` in `src/lib/utils.ts` and the inline
validation loop of `formActions.validate` in `src/lib/stores.ts`) -/

/-- JS truthiness of a field value (`undefined` and `''` are falsy). -/
def truthy (v : Option String) : Bool :=
  match v with
  | none => false
  | some s => !s.isEmpty

/-- Test `!value || value.toString().trim() === ''`. -/
def blankOrMissing (v : Option String) : Bool :=
  match v with
  | none => true
  | some s => isBlank s

/-- The `min` length check of a text/textarea field: the bound is consulted
only when truthy (`field.validation?.min && ...`, so a `0` "minimum" is
skipped); returns the violated bound. -/
def minViolation (rule : Option ValidationRule) (v : String) : Option Int :=
  match rule with
  | none => none
  | some r =>
    match r.min with
    | none => none
    | some m => if !(m == 0) && (v.length : Int) < m then some m else none

/-- The `max` length check of a text/textarea field, dual to
`minViolation`. -/
def maxViolation (rule : Option ValidationRule) (v : String) : Option Int :=
  match rule with
  | none => none
  | some r =>
    match r.max with
    | none => none
    | some m => if !(m == 0) && (v.length : Int) > m then some m else none

/-- The regex `pattern` of a validation rule, when present
(`field.validation?.pattern`). -/
def patternOf (rule : Option ValidationRule) : Option (String → Bool) :=
  match rule with
  | none => none
  | some r => r.pattern

/-- The text/textarea branch of `validateField` (utils): first violated
check wins, in source order `min`, `max`, `pattern`. -/
def textChecks (rule : Option ValidationRule) (v : String) : Option String :=
  match minViolation rule v with
  | some m => some ("Must be at least " ++ toString m ++ " characters")
  | none =>
    match maxViolation rule v with
    | some m => some ("Must be no more than " ++ toString m ++ " characters")
    | none =>
      match patternOf rule with
      | some p => if p v then none else some "Invalid format"
      | none => none

/-- The validation utility `validateField(field, value)` of
`src/lib/utils.ts`; `none` is a pass, `some msg` is the failure message. -/
def validateField (field : FormField) (value : Option String) : Option String :=
  if field.required && blankOrMissing value then
    some (field.label ++ " is required")
  else if !truthy value then none
  else
    let v := (value.getD "")
    match field.ftype with
    | .email =>
      if emailTest v then none else some "Please enter a valid email address"
    | .phone =>
      if phoneTest v then none else some "Please enter a valid phone number"
    | .text => textChecks field.validation v
    | .textarea => textChecks field.validation v
    | _ => none

/-- Accumulator of a full-form validation run: the error map being built and
the running `isValid` flag. -/
structure ValidateOutcome where
  errors : List (String × String)
  isValid : Bool
deriving DecidableEq

/-- The loop body of `formActions.validate` (stores) for one field: note
that the text/textarea branch checks `min` and `max` with two independent
`if` statements (the `max` message overwrites the `min` message when both
fail) and performs no `pattern` check. -/
def validateStoreStep (st : ValidateOutcome) (field : FormField)
    (value : Option String) : ValidateOutcome :=
  if field.required && blankOrMissing value then
    { errors := setKey st.errors field.name (field.label ++ " is required"),
      isValid := false }
  else if truthy value then
    let v := (value.getD "")
    match field.ftype with
    | .email =>
      if emailTest v then st
      else
        { errors := setKey st.errors field.name
            "Please enter a valid email address",
          isValid := false }
    | .phone =>
      if phoneTest v then st
      else
        { errors := setKey st.errors field.name
            "Please enter a valid phone number",
          isValid := false }
    | .text => textStoreChecks st field v
    | .textarea => textStoreChecks st field v
    | _ => st
  else st
where
  /-- The two sequential bound checks of the stores-side text/textarea
  branch. -/
  textStoreChecks (st : ValidateOutcome) (field : FormField) (v : String) :
      ValidateOutcome :=
    let st1 :=
      match minViolation field.validation v with
      | some m =>
        { errors := setKey st.errors field.name
            ("Must be at least " ++ toString m ++ " characters"),
          isValid := false }
      | none => st
    match maxViolation field.validation v with
    | some m =>
      { errors := setKey st1.errors field.name
          ("Must be no more than " ++ toString m ++ " characters"),
        isValid := false }
    | none => st1

/-- `formActions.validate` of `src/lib/stores.ts` run against an active
configuration: iterates the inline per-field checks over `config.fields`,
building a fresh error map (which then replaces the store map wholesale)
and the returned Boolean. -/
def validateAll (config : FormConfig) (data : List (String × String)) :
    ValidateOutcome :=
  config.fields.foldl
    (fun st f => validateStoreStep st f (lookupKey data f.name))
    { errors := [], isValid := true }

/-- Running the validation utility `validateField` field by field, exactly
as the submit handler of `DynamicForm.svelte` does: each failure is written
into the error map under the field name and clears the running flag. -/
def runValidateFields (fields : List FormField)
    (data : List (String × String)) : ValidateOutcome :=
  fields.foldl
    (fun st f =>
      match validateField f (lookupKey data f.name) with
      | some e => { errors := setKey st.errors f.name e, isValid := false }
      | none => st)
    { errors := [], isValid := true }

/-! ### Layout (`getFieldLayout` in `DynamicForm.svelte`) -/

/-- `fieldOrder.indexOf(name)`: position in the declared order, `-1` when
absent. -/
def orderIndex (order : List String) (name : String) : Int :=
  match order.findIdx? (fun s => s == name) with
  | some i => (i : Int)
  | none => -1

/-- Stable insertion of `x` into `l`: `x` goes before the first element
whose key is not smaller. -/
def orderedInsertKey {α : Type} (key : α → Int) (x : α) : List α → List α
  | [] => [x]
  | y :: ys => if key x ≤ key y then x :: y :: ys else y :: orderedInsertKey key x ys

/-- Stable sort by an integer key, modelling
`[...fields].sort((a, b) => aIndex - bIndex)` (`Array.prototype.sort` is a
stable ascending comparison sort). -/
def sortByKey {α : Type} (key : α → Int) : List α → List α
  | [] => []
  | x :: xs => orderedInsertKey key x (sortByKey key xs)

/-- `config.layout?.columns || 1` (a falsy column count, i.e. absent layout
or `0`, becomes `1`). -/
def effColumns (cfg : FormConfig) : Nat :=
  match cfg.layout with
  | none => 1
  | some lay => if lay.columns == 0 then 1 else lay.columns

/-- `config.layout?.fieldOrder || config.fields.map(f => f.name)`: the
fallback fires only when `layout` is absent (an empty array is truthy). -/
def effFieldOrder (cfg : FormConfig) : List String :=
  match cfg.layout with
  | none => cfg.fields.map (fun f => f.name)
  | some lay => lay.fieldOrder

/-- The `sortedFields` array of `getFieldLayout`. -/
def sortedFields (cfg : FormConfig) : List FormField :=
  sortByKey (fun f => orderIndex (effFieldOrder cfg) f.name) cfg.fields

/-- `groups[i].push(x)`: append `x` to the `i`-th group (out-of-range `i`
never occurs in the modelled call sites). -/
def appendAt {α : Type} : Nat → α → List (List α) → List (List α)
  | _, _, [] => []
  | 0, x, g :: gs => (g ++ [x]) :: gs
  | i + 1, x, g :: gs => g :: appendAt i x gs

/-- The round-robin distribution loop of `getFieldLayout`:
`sortedFields.forEach((field, index) => columnGroups[index % columns].push(field))`
starting from `columns` empty groups. -/
def distRR {α : Type} (cols : Nat) (l : List α) : List (List α) :=
  l.enum.foldl (fun gs p => appendAt (p.1 % cols) p.2 gs)
    (List.replicate cols [])

/-- The contents of round-robin column `c`: the elements whose index is
congruent to `c` modulo `cols`, in order. -/
def rrColumn {α : Type} (cols c : Nat) (l : List α) : List α :=
  (l.enum.filter (fun p => p.1 % cols == c)).map Prod.snd

/-- `getFieldLayout` of `DynamicForm.svelte`: sort the fields by their
position in the declared order, then deal them round-robin into
`effColumns` columns. -/
def getFieldLayout (cfg : FormConfig) : List (List FormField) :=
  distRR (effColumns cfg) (sortedFields cfg)

/-! ### The form state store (`src/lib/stores.ts`) -/

/-- The `FormState` record of the store. Session identifiers (in the code
`session_<Date.now()>_<random suffix>` strings) are modelled as the natural
numbers handed out by the world clock. -/
structure FormState where
  config : Option FormConfig := none
  data : List (String × String) := []
  errors : List (String × String) := []
  isSubmitting : Bool := false
  isSubmitted : Bool := false
  sessionId : Nat := 0
  lastSaved : Option Nat := none

/-- The ambient state the store operations touch: the `formState` writable,
the separate `formConfig` writable, `localStorage` (a map from keys to
persisted data snapshots), the `lastAutoSave` writable, the `browser` flag,
and the id-generation clock. The clock is strictly ahead of every
previously issued identifier. -/
structure World where
  form : FormState
  configStore : Option FormConfig := none
  storage : List (String × List (String × String)) := []
  lastAutoSave : Option Nat := none
  browser : Bool := true
  clock : Nat := 1

/-- `state.config?.settings?.auto_save` (missing config or settings is
falsy). -/
def autoSaveOn (c : Option FormConfig) : Bool :=
  match c with
  | none => false
  | some cfg =>
    match cfg.settings with
    | none => false
    | some s => s.auto_save

/-- The `localStorage` key `form_<configId>_data` of the auto-save
snapshot. -/
def storageKey (cfg : FormConfig) : String := "form_" ++ cfg.id ++ "_data"

/-- `formActions.updateField(fieldName, value)`: merge the value into
`data`, drop the field's error, and persist the new data map when running
in a browser with auto-save configured (the `autoSaveEnabled` conjunct of
the source compares the store object itself, which is always truthy). -/
def updateField (w : World) (fieldName : String) (value : String) : World :=
  let state := w.form
  let newData := setKey state.data fieldName value
  let newErrors := delKey state.errors fieldName
  let w1 :=
    match state.config with
    | some cfg =>
      if w.browser && autoSaveOn state.config then
        { w with storage := setKey w.storage (storageKey cfg) newData,
                 lastAutoSave := some w.clock,
                 clock := w.clock + 1 }
      else w
    | none => w
  { w1 with form := { state with data := newData, errors := newErrors } }

/-- `formActions.setFieldError(fieldName, error)`. -/
def setFieldError (w : World) (fieldName error : String) : World :=
  { w with form := { w.form with errors := setKey w.form.errors fieldName error } }

/-- `formActions.clearFieldError(fieldName)`. -/
def clearFieldError (w : World) (fieldName : String) : World :=
  { w with form := { w.form with errors := delKey w.form.errors fieldName } }

/-- `formActions.clearErrors()`. -/
def clearErrors (w : World) : World :=
  { w with form := { w.form with errors := [] } }

/-- `formActions.setSubmitting(isSubmitting)`. -/
def setSubmitting (w : World) (b : Bool) : World :=
  { w with form := { w.form with isSubmitting := b } }

/-- `formActions.setSubmitted()`: the store update marking `isSubmitted`
runs, but the following `if (browser && state.config?.id)` reads the
variable `state`, which is only in scope inside the update callback — in a
browser this raises `ReferenceError: state is not defined` before
`storage.remove` is reached.  Returns the resulting world together with the
thrown error, if any. -/
def setSubmitted (w : World) : World × Option String :=
  let w1 := { w with form := { w.form with isSubmitted := true } }
  if w1.browser then (w1, some "ReferenceError: state is not defined")
  else (w1, none)

/-- `formActions.reset()`: with an active config (the `formConfig`
writable), clear `data`/`errors`, drop the submitted flag, issue a fresh
session id, and erase the persisted snapshot; without one, do nothing. -/
def reset (w : World) : World :=
  match w.configStore with
  | none => w
  | some config =>
    let w1 :=
      { w with
        form := { w.form with data := [], errors := [], isSubmitted := false,
                              sessionId := w.clock },
        clock := w.clock + 1 }
    if w.browser then { w1 with storage := delKey w1.storage (storageKey config) }
    else w1

/-! ### The submit handler (`handleSubmit` in `DynamicForm.svelte`) -/

/-- Observable outcome of one `handleSubmit` invocation: whether the
handler got past the `isSubmitting || disabled` guard, the error map it
installed, and whether it issued the `fetch('/api/submit', ...)` call. -/
structure SubmitAttempt where
  ran : Bool
  errors : List (String × String)
  networkCalled : Bool
deriving DecidableEq

/-- `handleSubmit` of `DynamicForm.svelte` up to the network boundary:
after the re-entrancy guard it validates every field with `validateField`,
installs the fresh error map, and only reaches `fetch` when validation
passed (the response processing beyond the call itself is outside the
modelled claims). -/
def handleSubmit (cfg : FormConfig) (formData prevErrors : List (String × String))
    (isSubmitting disabled : Bool) : SubmitAttempt :=
  if isSubmitting || disabled then
    { ran := false, errors := prevErrors, networkCalled := false }
  else
    let out := runValidateFields cfg.fields formData
    { ran := true, errors := out.errors, networkCalled := out.isValid }

/-! ### The submission endpoint (`src/routes/api/submit/+server.ts`) -/

/-- A parsed `FormSubmissionSchema` payload. -/
structure Submission where
  form_id : String
  org_code : String
  data : List (String × String) := []
  session_id : Option String := none
  user_agent : Option String := none
  referrer : Option String := none

/-- The JSON response of the endpoint, flattened: HTTP status, `success`,
the `error`/`message` strings, and the members of the success `data`
record. -/
structure ApiResponse where
  status : Nat
  success : Bool
  error : Option String := none
  message : Option String := none
  submission_id : Option String := none
  org_id : Option String := none
  form_id : Option String := none
  submitted_at : Option Nat := none
deriving DecidableEq

/-- `getFormByOrgCode` of `src/lib/supabase.ts`: a `.eq('org_code', code)`
query with `.single()`, which yields a row exactly when the stored table
has a unique match. -/
def getFormByOrgCode (db : List FormConfig) (code : String) :
    Option FormConfig :=
  match db.filter (fun c => c.org_code == code) with
  | [c] => some c
  | _ => none

/-- The `POST` handler of `/api/submit`. The body is `none` when
`FormSubmissionSchema.parse` rejects it (the caught `ZodError`); `now` and
`rand` model the `Date.now()` timestamp and random suffix of the generated
submission id.  The `createFormSession`/`trackAnalyticsEvent` calls return
error tuples and never throw, so they cannot change the response. -/
def postSubmit (db : List FormConfig) (body : Option Submission)
    (now : Nat) (rand : String) : ApiResponse :=
  match body with
  | none => { status := 400, success := false, error := some "Invalid submission data" }
  | some sub =>
    match getFormByOrgCode db sub.org_code with
    | none =>
      { status := 404, success := false,
        error := some "Invalid organization code or form not found" }
    | some fc =>
      if fc.id != sub.form_id then
        { status := 400, success := false, error := some "Form ID mismatch" }
      else
        { status := 200, success := true,
          message := some "Form submitted successfully",
          submission_id := some ("sub_" ++ toString now ++ "_" ++ rand),
          org_id := some fc.org_id, form_id := some fc.id,
          submitted_at := some now }

/-! ### Association-list lemmas -/

theorem setKey_setKey {α : Type} (m : List (String × α)) (k : String) (v : α) :
    setKey (setKey m k v) k v = setKey m k v := by
  induction m with
  | nil => simp [setKey]
  | cons p ps ih =>
    by_cases h : p.1 = k
    · simp [setKey, h]
    · simp only [setKey, beq_iff_eq, h, if_false, if_neg h]
      rw [ih]

theorem delKey_delKey {α : Type} (m : List (String × α)) (k : String) :
    delKey (delKey m k) k = delKey m k := by
  induction m with
  | nil => rfl
  | cons p ps ih =>
    by_cases h : p.1 = k
    · simp [delKey, h, ih]
    · simp [delKey, h, ih]

theorem lookupKey_delKey {α : Type} (m : List (String × α)) (k : String) :
    lookupKey (delKey m k) k = none := by
  induction m with
  | nil => rfl
  | cons p ps ih =>
    by_cases h : p.1 = k
    · simp [delKey, h, ih]
    · simp [delKey, lookupKey, h, ih]

theorem lookupKey_setKey_self {α : Type} (m : List (String × α)) (k : String)
    (v : α) : lookupKey (setKey m k v) k = some v := by
  induction m with
  | nil => simp [setKey, lookupKey]
  | cons p ps ih =>
    by_cases h : p.1 = k
    · simp [setKey, h, lookupKey]
    · simp [setKey, h, lookupKey, ih]

theorem lookupKey_setKey_ne {α : Type} (m : List (String × α)) (k j : String)
    (v : α) (h : j ≠ k) : lookupKey (setKey m k v) j = lookupKey m j := by
  have hk : ¬(k = j) := fun e => h e.symm
  induction m with
  | nil => simp [setKey, lookupKey, hk]
  | cons p ps ih =>
    by_cases hp : p.1 = k
    · have hpj : ¬(p.1 = j) := by rw [hp]; exact hk
      simp [setKey, hp, lookupKey, hk, hpj]
    · simp only [setKey, beq_iff_eq, hp, if_neg hp, lookupKey]
      by_cases hj : p.1 = j
      · simp [hj]
      · simp [hj, ih]

/-! ### C9: the error-map mutators do not touch the rest of the state -/

/-- C9: for every state, field name and message, `setFieldError`,
`clearFieldError` and `clearErrors` leave `data`, `config`, `sessionId`,
`isSubmitting`, `isSubmitted` and `lastSaved` unchanged, modifying only the
error map. -/
theorem errorMutators_frame (w : World) (name msg : String) :
    ((setFieldError w name msg).form.data = w.form.data ∧
      (setFieldError w name msg).form.config = w.form.config ∧
      (setFieldError w name msg).form.sessionId = w.form.sessionId ∧
      (setFieldError w name msg).form.isSubmitting = w.form.isSubmitting ∧
      (setFieldError w name msg).form.isSubmitted = w.form.isSubmitted ∧
      (setFieldError w name msg).form.lastSaved = w.form.lastSaved) ∧
    ((clearFieldError w name).form.data = w.form.data ∧
      (clearFieldError w name).form.config = w.form.config ∧
      (clearFieldError w name).form.sessionId = w.form.sessionId ∧
      (clearFieldError w name).form.isSubmitting = w.form.isSubmitting ∧
      (clearFieldError w name).form.isSubmitted = w.form.isSubmitted ∧
      (clearFieldError w name).form.lastSaved = w.form.lastSaved) ∧
    ((clearErrors w).form.data = w.form.data ∧
      (clearErrors w).form.config = w.form.config ∧
      (clearErrors w).form.sessionId = w.form.sessionId ∧
      (clearErrors w).form.isSubmitting = w.form.isSubmitting ∧
      (clearErrors w).form.isSubmitted = w.form.isSubmitted ∧
      (clearErrors w).form.lastSaved = w.form.lastSaved) :=
  ⟨⟨rfl, rfl, rfl, rfl, rfl, rfl⟩, ⟨rfl, rfl, rfl, rfl, rfl, rfl⟩,
    ⟨rfl, rfl, rfl, rfl, rfl, rfl⟩⟩

/-! ### C2: `setSubmitted` -/

/-- A browser-side state with an active config and a persisted auto-save
snapshot, on which `setSubmitted()` is claimed to erase the snapshot. -/
def submittedWorldCE : World :=
  { form := { config := some { id := "f1", fields := [] },
              data := [("name", "x")], sessionId := 3 },
    configStore := some { id := "f1", fields := [] },
    storage := [("form_f1_data", [("name", "x")])],
    browser := true, clock := 5 }

/-- C2 (failing input): on a browser state with an active config,
`setSubmitted()` raises `ReferenceError` (the source reads `state` outside
the update callback that binds it) after setting `isSubmitted`, and the
persisted entry `form_f1_data` is still present afterwards — the claimed
removal never happens. -/
theorem setSubmitted_throws_and_keeps_snapshot :
    (setSubmitted submittedWorldCE).2 =
      some "ReferenceError: state is not defined" ∧
    (setSubmitted submittedWorldCE).1.form.isSubmitted = true ∧
    lookupKey (setSubmitted submittedWorldCE).1.storage "form_f1_data" =
      some [("name", "x")] :=
  ⟨rfl, rfl, rfl⟩

/-! ### C4: the submission endpoint -/

/-- C4: the `POST /api/submit` response: 400 on a structurally invalid
body, 404 with "Invalid organization code or form not found" when the org
code resolves to no stored configuration, 400 with "Form ID mismatch" when
the payload form id differs from the resolved configuration's id, and
otherwise 200 with `success`, a submission id, and `org_id`/`form_id`
echoing the stored configuration. -/
theorem postSubmit_spec (db : List FormConfig) (body : Option Submission)
    (now : Nat) (rand : String) :
    (body = none → (postSubmit db body now rand).status = 400) ∧
    (∀ sub, body = some sub → getFormByOrgCode db sub.org_code = none →
      (postSubmit db body now rand).status = 404 ∧
      (postSubmit db body now rand).error =
        some "Invalid organization code or form not found") ∧
    (∀ sub fc, body = some sub → getFormByOrgCode db sub.org_code = some fc →
      fc.id ≠ sub.form_id →
      (postSubmit db body now rand).status = 400 ∧
      (postSubmit db body now rand).error = some "Form ID mismatch") ∧
    (∀ sub fc, body = some sub → getFormByOrgCode db sub.org_code = some fc →
      fc.id = sub.form_id →
      (postSubmit db body now rand).status = 200 ∧
      (postSubmit db body now rand).success = true ∧
      (∃ sid, (postSubmit db body now rand).submission_id = some sid) ∧
      (postSubmit db body now rand).org_id = some fc.org_id ∧
      (postSubmit db body now rand).form_id = some fc.id) := by
  refine ⟨?_, ?_, ?_, ?_⟩
  · rintro rfl; rfl
  · rintro sub rfl hdb
    simp [postSubmit, hdb]
  · rintro sub fc rfl hdb hid
    simp [postSubmit, hdb, bne_iff_ne, hid]
  · rintro sub fc rfl hdb hid
    simp [postSubmit, hdb, bne_iff_ne, hid]

/-- The stored configuration of the C4 scenario. -/
def storedCfgW : FormConfig :=
  { id := "f1", org_id := "org1", org_code := "ABC123",
    fields := [{ name := "name", label := "Name", ftype := .text,
                 required := true }] }

/-- The valid payload of the C4 scenario. -/
def submissionW : Submission :=
  { form_id := "f1", org_code := "ABC123", data := [("name", "Jane")] }

/-- Witness for C4: the spec scenario — payload `{formId: "f1",
orgCode: "ABC123", data: {name: "Jane"}}` against the matching stored
configuration yields 200, `success`, a submission id, and the stored
`org_id`/`form_id`. -/
theorem postSubmit_spec_witness :
    (postSubmit [storedCfgW] (some submissionW) 42 "r4nd0m").status = 200 ∧
    (postSubmit [storedCfgW] (some submissionW) 42 "r4nd0m").success = true ∧
    (∃ sid, (postSubmit [storedCfgW] (some submissionW) 42 "r4nd0m").submission_id
      = some sid) ∧
    (postSubmit [storedCfgW] (some submissionW) 42 "r4nd0m").org_id = some "org1" ∧
    (postSubmit [storedCfgW] (some submissionW) 42 "r4nd0m").form_id = some "f1" :=
  (postSubmit_spec [storedCfgW] (some submissionW) 42 "r4nd0m").2.2.2
    submissionW storedCfgW rfl rfl rfl

/-! ### C5: `reset` -/

/-- C5: with an active config, `reset()` clears `data` and `errors`,
issues a session id different from the previous one (the clock is strictly
ahead of every issued id), and erases the persisted `form_<configId>_data`
snapshot; with no active config it is a no-op. -/
theorem reset_spec (w : World) (hb : w.browser = true)
    (hfresh : w.form.sessionId < w.clock) :
    (∀ cfg, w.configStore = some cfg →
      (reset w).form.data = [] ∧ (reset w).form.errors = [] ∧
      (reset w).form.sessionId ≠ w.form.sessionId ∧
      lookupKey (reset w).storage (storageKey cfg) = none) ∧
    (w.configStore = none → reset w = w) := by
  constructor
  · intro cfg hc
    refine ⟨?_, ?_, ?_, ?_⟩
    · simp [reset, hc, hb]
    · simp [reset, hc, hb]
    · simp only [reset, hc, hb, if_true]
      show w.clock ≠ w.form.sessionId
      omega
    · simp only [reset, hc, hb, if_true]
      exact lookupKey_delKey _ _
  · intro hc
    simp only [reset, hc]

/-- The concrete world of the C5 witness: active config `f5w`, stale
session id 3, clock 7, a persisted snapshot present. -/
def resetWorldW : World :=
  { form := { config := some { id := "f5w", fields := [] },
              data := [("name", "x")], errors := [("name", "bad")],
              sessionId := 3 },
    configStore := some { id := "f5w", fields := [] },
    storage := [("form_f5w_data", [("name", "x")])],
    browser := true, clock := 7 }

/-- Witness for C5 at a concrete browser world with an active config. -/
theorem reset_spec_witness :
    (reset resetWorldW).form.data = [] ∧
    (reset resetWorldW).form.errors = [] ∧
    (reset resetWorldW).form.sessionId ≠ resetWorldW.form.sessionId ∧
    lookupKey (reset resetWorldW).storage (storageKey { id := "f5w", fields := [] })
      = none :=
  (reset_spec resetWorldW rfl (by decide)).1 { id := "f5w", fields := [] } rfl

/-! ### C8: `updateField` idempotence -/

/-- The effect of one `updateField` call on the `FormState` alone. -/
def updateFormPure (s : FormState) (name value : String) : FormState :=
  { s with data := setKey s.data name value, errors := delKey s.errors name }

theorem updateField_form (w : World) (name value : String) :
    (updateField w name value).form = updateFormPure w.form name value := rfl

theorem updateFormPure_idem (s : FormState) (name value : String) :
    updateFormPure (updateFormPure s name value) name value =
      updateFormPure s name value := by
  simp [updateFormPure, setKey_setKey, delKey_delKey]

theorem updateField_updateField_form (w : World) (name value : String) :
    (updateField (updateField w name value) name value).form =
      (updateField w name value).form := by
  rw [updateField_form, updateField_form]
  exact updateFormPure_idem w.form name value

theorem updateField_iterate_form (w : World) (name value : String) (M : Nat) :
    ((fun x => updateField x name value)^[M] (updateField w name value)).form =
      (updateField w name value).form := by
  induction M generalizing w with
  | zero => rfl
  | succ M ih =>
    rw [Function.iterate_succ_apply]
    have h2 := ih (updateField w name value)
    rw [h2, updateField_updateField_form]

/-- C8: `updateField` is idempotent — for every state, field name, value
and `N ≥ 1`, the `FormState` after `N` consecutive identical calls equals
the `FormState` after one call. -/
theorem updateField_idempotent (w : World) (name value : String) (N : Nat)
    (h : 1 ≤ N) :
    ((fun x => updateField x name value)^[N] w).form =
      (updateField w name value).form := by
  obtain ⟨M, rfl⟩ : ∃ M, N = M + 1 := ⟨N - 1, by omega⟩
  rw [Function.iterate_succ_apply]
  exact updateField_iterate_form w name value M

/-- Witness for C8: three identical `updateField` calls on a concrete
state produce the same `FormState` as one. -/
theorem updateField_idempotent_witness :
    1 ≤ 3 ∧
    ((fun x => updateField x "name" "Jane")^[3] resetWorldW).form =
      (updateField resetWorldW "name" "Jane").form :=
  ⟨by decide, updateField_idempotent resetWorldW "name" "Jane" 3 (by decide)⟩

/-! ### C3: required fields block submission -/

/-- The per-field step of the `handleSubmit` validation loop (and of
`runValidateFields`). -/
def fieldStep (data : List (String × String)) (st : ValidateOutcome)
    (f : FormField) : ValidateOutcome :=
  match validateField f (lookupKey data f.name) with
  | some e => { errors := setKey st.errors f.name e, isValid := false }
  | none => st

theorem runValidateFields_eq_foldl (fields : List FormField)
    (data : List (String × String)) :
    runValidateFields fields data =
      List.foldl (fieldStep data) { errors := [], isValid := true } fields := rfl

theorem fieldStep_foldl_lookup_frame (data : List (String × String))
    (k : String) (fields : List FormField) :
    ∀ st : ValidateOutcome, (∀ f ∈ fields, f.name ≠ k) →
      lookupKey (List.foldl (fieldStep data) st fields).errors k =
        lookupKey st.errors k := by
  induction fields with
  | nil => intro st _; rfl
  | cons g gs ih =>
    intro st hk
    have hg : g.name ≠ k := hk g (List.mem_cons_self g gs)
    have hgs : ∀ f ∈ gs, f.name ≠ k := fun f hf => hk f (List.mem_cons_of_mem g hf)
    simp only [List.foldl_cons]
    cases hve : validateField g (lookupKey data g.name) with
    | none =>
      rw [show fieldStep data st g = st from by simp [fieldStep, hve]]
      exact ih st hgs
    | some e =>
      rw [show fieldStep data st g =
        { errors := setKey st.errors g.name e, isValid := false } from by
          simp [fieldStep, hve]]
      rw [ih _ hgs]
      exact lookupKey_setKey_ne st.errors g.name k e (fun h => hg h.symm)

theorem fieldStep_foldl_isValid_absorb (data : List (String × String))
    (fields : List FormField) :
    ∀ st : ValidateOutcome, st.isValid = false →
      (List.foldl (fieldStep data) st fields).isValid = false := by
  induction fields with
  | nil => intro st h; exact h
  | cons g gs ih =>
    intro st h
    simp only [List.foldl_cons]
    cases hve : validateField g (lookupKey data g.name) with
    | none =>
      rw [show fieldStep data st g = st from by simp [fieldStep, hve]]
      exact ih st h
    | some e =>
      rw [show fieldStep data st g =
        { errors := setKey st.errors g.name e, isValid := false } from by
          simp [fieldStep, hve]]
      exact ih _ rfl

theorem fieldStep_foldl_lookup_of_mem (data : List (String × String))
    (field : FormField) (e : String)
    (hve : validateField field (lookupKey data field.name) = some e) :
    ∀ (fields : List FormField) (st : ValidateOutcome), field ∈ fields →
      (fields.map FormField.name).Nodup →
      lookupKey (List.foldl (fieldStep data) st fields).errors field.name =
        some e := by
  intro fields
  induction fields with
  | nil => intro st hmem _; exact absurd hmem (List.not_mem_nil field)
  | cons g gs ih =>
    intro st hmem hnodup
    simp only [List.map_cons, List.nodup_cons] at hnodup
    rcases List.mem_cons.mp hmem with rfl | hmem2
    · simp only [List.foldl_cons]
      rw [show fieldStep data st field =
        { errors := setKey st.errors field.name e, isValid := false } from by
          simp [fieldStep, hve]]
      have hgs : ∀ f ∈ gs, f.name ≠ field.name := by
        intro f hf he
        exact hnodup.1 (he ▸ List.mem_map_of_mem FormField.name hf)
      rw [fieldStep_foldl_lookup_frame data field.name gs _ hgs]
      exact lookupKey_setKey_self st.errors field.name e
    · simp only [List.foldl_cons]
      exact ih _ hmem2 hnodup.2

theorem fieldStep_foldl_isValid_of_mem (data : List (String × String))
    (field : FormField) (e : String)
    (hve : validateField field (lookupKey data field.name) = some e) :
    ∀ (fields : List FormField) (st : ValidateOutcome), field ∈ fields →
      (List.foldl (fieldStep data) st fields).isValid = false := by
  intro fields
  induction fields with
  | nil => intro st hmem; exact absurd hmem (List.not_mem_nil field)
  | cons g gs ih =>
    intro st hmem
    simp only [List.foldl_cons]
    rcases List.mem_cons.mp hmem with rfl | hmem2
    · rw [show fieldStep data st field =
        { errors := setKey st.errors field.name e, isValid := false } from by
          simp [fieldStep, hve]]
      exact fieldStep_foldl_isValid_absorb data gs _ rfl
    · exact ih _ hmem2

/-- C3: submitting with a required field whose value is missing, empty or
whitespace-only installs the error `<label> is required` for that field and
the handler returns before the network call (field names are unique within
a config, the invariant the spec states in §3/§9). -/
theorem handleSubmit_required_blocks (cfg : FormConfig)
    (formData prevErrors : List (String × String)) (field : FormField)
    (hmem : field ∈ cfg.fields)
    (hnodup : (cfg.fields.map FormField.name).Nodup)
    (hreq : field.required = true)
    (hblank : blankOrMissing (lookupKey formData field.name) = true) :
    lookupKey (handleSubmit cfg formData prevErrors false false).errors
        field.name = some (field.label ++ " is required") ∧
    (handleSubmit cfg formData prevErrors false false).networkCalled = false := by
  have hve : validateField field (lookupKey formData field.name) =
      some (field.label ++ " is required") := by
    simp [validateField, hreq, hblank]
  have hout : handleSubmit cfg formData prevErrors false false =
      { ran := true, errors := (runValidateFields cfg.fields formData).errors,
        networkCalled := (runValidateFields cfg.fields formData).isValid } := rfl
  rw [hout, runValidateFields_eq_foldl]
  exact ⟨fieldStep_foldl_lookup_of_mem formData field _ hve cfg.fields _ hmem
      hnodup,
    fieldStep_foldl_isValid_of_mem formData field _ hve cfg.fields _ hmem⟩

/-- The required name field of the spec scenario (§8). -/
def nameFieldW : FormField :=
  { name := "name", label := "Name", ftype := .text, required := true }

/-- The configuration of the spec scenario: org code `ABC123`, one required
text field `name`. -/
def scenarioCfgW : FormConfig :=
  { id := "f1", org_code := "ABC123", fields := [nameFieldW] }

/-- Witness for C3: the §8 scenario — submitting `name=""` installs
"Name is required" and makes no network call. -/
theorem handleSubmit_required_blocks_witness :
    lookupKey (handleSubmit scenarioCfgW [("name", "")] [] false false).errors
        "name" = some "Name is required" ∧
    (handleSubmit scenarioCfgW [("name", "")] [] false false).networkCalled =
      false := by
  have h := handleSubmit_required_blocks scenarioCfgW [("name", "")] []
    nameFieldW (List.mem_cons_self nameFieldW []) (by decide) rfl (by decide)
  exact ⟨h.1, h.2⟩

/-! ### C7: email validation against the regex -/

/-- Declarative reading of a full match of the email regex
`^[^\s@]+@[^\s@]+\.[^\s@]+$`: the character sequence decomposes as
`A ++ '@' :: B ++ '.' :: C` with `A`, `B`, `C` nonempty and every character
outside whitespace and `@`. -/
def EmailRegexMatch (s : String) : Prop :=
  ∃ A B C : List Char,
    s.toList = A ++ '@' :: (B ++ '.' :: C) ∧ A ≠ [] ∧ B ≠ [] ∧ C ≠ [] ∧
    (∀ c ∈ A, goodEmailChar c = true) ∧ (∀ c ∈ B, goodEmailChar c = true) ∧
    (∀ c ∈ C, goodEmailChar c = true)

theorem splitAtChar_sound (ch : Char) :
    ∀ l a b : List Char, splitAtChar ch l = some (a, b) →
      l = a ++ ch :: b ∧ ch ∉ a := by
  intro l
  induction l with
  | nil => intro a b h; simp [splitAtChar] at h
  | cons c cs ih =>
    intro a b h
    by_cases hc : c = ch
    · subst hc
      simp only [splitAtChar, beq_self_eq_true, if_true, Option.some.injEq,
        Prod.mk.injEq] at h
      obtain ⟨ha, hb⟩ := h
      subst ha
      subst hb
      exact ⟨rfl, List.not_mem_nil c⟩
    · simp only [splitAtChar, beq_iff_eq, hc, if_false] at h
      cases hs : splitAtChar ch cs with
      | none => rw [hs] at h; simp at h
      | some p =>
        obtain ⟨a2, b2⟩ := p
        rw [hs] at h
        simp only [Option.some.injEq, Prod.mk.injEq] at h
        obtain ⟨ha, hb⟩ := h
        subst ha
        subst hb
        obtain ⟨heq, hmem⟩ := ih a2 b2 hs
        constructor
        · rw [List.cons_append, ← heq]
        · intro hin
          rcases List.mem_cons.mp hin with h1 | h2
          · exact hc h1.symm
          · exact hmem h2

theorem splitAtChar_complete (ch : Char) :
    ∀ a b : List Char, ch ∉ a → splitAtChar ch (a ++ ch :: b) = some (a, b) := by
  intro a
  induction a with
  | nil => intro b _; simp [splitAtChar]
  | cons c cs ih =>
    intro b hmem
    have hc : ¬(c = ch) := by
      intro h
      exact hmem (h ▸ List.mem_cons_self c cs)
    simp only [List.cons_append, splitAtChar, beq_iff_eq, hc, if_false,
      List.append_eq]
    rw [ih b (fun hin => hmem (List.mem_cons_of_mem c hin))]

theorem tailDotSplit_iff :
    ∀ l : List Char, tailDotSplit l = true ↔
      ∃ b c, l = b ++ '.' :: c ∧ c ≠ [] := by
  intro l
  induction l with
  | nil =>
    simp only [tailDotSplit, Bool.false_eq_true, false_iff]
    rintro ⟨b, c, hbc, -⟩
    cases b <;> simp_all
  | cons x xs ih =>
    simp only [tailDotSplit, Bool.or_eq_true, Bool.and_eq_true, beq_iff_eq]
    constructor
    · rintro (⟨rfl, hne⟩ | h)
      · refine ⟨[], xs, rfl, ?_⟩
        intro h0
        rw [h0] at hne
        simp at hne
      · obtain ⟨b, c, rfl, hc⟩ := ih.mp h
        exact ⟨x :: b, c, rfl, hc⟩
    · rintro ⟨b, c, hbc, hc⟩
      cases b with
      | nil =>
        simp only [List.nil_append, List.cons.injEq] at hbc
        left
        refine ⟨hbc.1, ?_⟩
        rw [hbc.2]
        cases c with
        | nil => exact absurd rfl hc
        | cons y ys => rfl
      | cons y ys =>
        simp only [List.cons_append, List.cons.injEq] at hbc
        right
        exact ih.mpr ⟨ys, c, hbc.2, hc⟩

theorem interiorDotSplit_iff :
    ∀ l : List Char, interiorDotSplit l = true ↔
      ∃ b c, l = b ++ '.' :: c ∧ b ≠ [] ∧ c ≠ [] := by
  intro l
  cases l with
  | nil =>
    simp only [interiorDotSplit, Bool.false_eq_true, false_iff]
    rintro ⟨b, c, hbc, -, -⟩
    cases b <;> simp_all
  | cons x xs =>
    simp only [interiorDotSplit, tailDotSplit_iff]
    constructor
    · rintro ⟨b, c, rfl, hc⟩
      exact ⟨x :: b, c, rfl, List.cons_ne_nil x b, hc⟩
    · rintro ⟨b, c, hbc, hb, hc⟩
      cases b with
      | nil => exact absurd rfl hb
      | cons y ys =>
        simp only [List.cons_append, List.cons.injEq] at hbc
        exact ⟨ys, c, hbc.2, hc⟩

theorem emailTest_iff (s : String) :
    emailTest s = true ↔ EmailRegexMatch s := by
  constructor
  · intro h
    unfold emailTest at h
    cases hsp : splitAtChar '@' s.toList with
    | none => rw [hsp] at h; simp at h
    | some p =>
      obtain ⟨a, rest⟩ := p
      rw [hsp] at h
      simp only [Bool.and_eq_true, Bool.not_eq_eq_eq_not, Bool.not_true,
        List.all_eq_true] at h
      obtain ⟨⟨⟨hne, hga⟩, hgr⟩, hdot⟩ := h
      obtain ⟨heq, -⟩ := splitAtChar_sound '@' s.toList a rest hsp
      obtain ⟨b, c, rfl, hb, hc⟩ := (interiorDotSplit_iff rest).mp hdot
      refine ⟨a, b, c, heq, ?_, hb, hc, hga, ?_, ?_⟩
      · intro h0; rw [h0] at hne; simp at hne
      · intro x hx; exact hgr x (List.mem_append_left _ hx)
      · intro x hx
        exact hgr x (List.mem_append_right _ (List.mem_cons_of_mem '.' hx))
  · rintro ⟨A, B, C, heq, hA, hB, hC, hgA, hgB, hgC⟩
    have hnomem : '@' ∉ A := by
      intro hin
      have := hgA '@' hin
      simp [goodEmailChar] at this
    have hsp : splitAtChar '@' s.toList = some (A, B ++ '.' :: C) := by
      rw [heq]; exact splitAtChar_complete '@' A (B ++ '.' :: C) hnomem
    unfold emailTest
    rw [hsp]
    simp only [Bool.and_eq_true, Bool.not_eq_eq_eq_not, Bool.not_true,
      List.all_eq_true]
    refine ⟨⟨⟨?_, hgA⟩, ?_⟩, ?_⟩
    · cases A with
      | nil => exact absurd rfl hA
      | cons x xs => rfl
    · intro x hx
      rcases List.mem_append.mp hx with h1 | h2
      · exact hgB x h1
      · rcases List.mem_cons.mp h2 with rfl | h3
        · decide
        · exact hgC x h3
    · exact (interiorDotSplit_iff _).mpr ⟨B, C, rfl, hB, hC⟩

/-- C7 (amended): for an email field and a nonempty value that the
required/whitespace check does not intercept, `validateField` passes
exactly when the value matches the email regex, and fails with
"Please enter a valid email address" when it does not. -/
theorem validateField_email_spec (f : FormField) (v : String)
    (hf : f.ftype = FieldType.email) (hv : v ≠ "")
    (hreq : f.required = true → isBlank v = false) :
    (validateField f (some v) = none ↔ EmailRegexMatch v) ∧
    (¬EmailRegexMatch v →
      validateField f (some v) = some "Please enter a valid email address") := by
  have hblank : (f.required && blankOrMissing (some v)) = false := by
    cases hr : f.required
    · simp
    · simp [blankOrMissing, hreq hr]
  have hie : v.isEmpty = false := by
    cases he : v.isEmpty
    · rfl
    · exact absurd ((String.isEmpty_iff v).mp he) hv
  have htr : truthy (some v) = true := by simp [truthy, hie]
  have hval : validateField f (some v) =
      if emailTest v then none
      else some "Please enter a valid email address" := by
    unfold validateField
    rw [hblank, htr, hf]
    simp
  rw [hval]
  constructor
  · constructor
    · intro h
      cases he : emailTest v
      · rw [he] at h; simp at h
      · exact (emailTest_iff v).mp he
    · intro hm
      rw [(emailTest_iff v).mpr hm]
      simp
  · intro hm
    have hfe : emailTest v = false := by
      cases he : emailTest v
      · rfl
      · exact absurd ((emailTest_iff v).mp he) hm
    rw [hfe]
    simp

/-- A non-required email field. -/
def emailFieldOpt : FormField :=
  { name := "e", label := "E", ftype := .email, required := false }

/-- A required email field. -/
def emailFieldReq : FormField :=
  { name := "e", label := "E", ftype := .email, required := true }

/-- C7 counterexample: the claim quantifies over every value, but an empty
value bypasses the email check (`!value` short-circuits): a non-required
email field passes on `""` although `""` does not match the regex; and on a
required field a whitespace-only value gets the required-message, not the
email message. -/
theorem validateField_email_counterexample :
    (validateField emailFieldOpt (some "") = none ∧ ¬EmailRegexMatch "") ∧
    (validateField emailFieldReq (some " ") = some "E is required" ∧
      ¬EmailRegexMatch " ") := by
  refine ⟨⟨rfl, ?_⟩, ⟨rfl, ?_⟩⟩
  · intro hm
    exact absurd ((emailTest_iff "").mpr hm) (by decide)
  · intro hm
    exact absurd ((emailTest_iff " ").mpr hm) (by decide)

/-- Witness for C7: `a@b.c` on a non-required email field passes. -/
theorem validateField_email_spec_witness :
    validateField emailFieldOpt (some "a@b.c") = none := by
  have h := validateField_email_spec emailFieldOpt "a@b.c" rfl (by decide)
    (by decide)
  exact h.1.mpr ⟨['a'], ['b'], ['c'], rfl, by decide, by decide, by decide,
    by decide, by decide, by decide⟩

/-! ### C1: `formActions.validate` versus field-by-field `validateField` -/

/-- The `min` bound of a validation rule (`field.validation?.min`). -/
def minOf (rule : Option ValidationRule) : Option Int :=
  match rule with
  | none => none
  | some r => r.min

/-- The `max` bound of a validation rule (`field.validation?.max`). -/
def maxOf (rule : Option ValidationRule) : Option Int :=
  match rule with
  | none => none
  | some r => r.max

/-- Side condition under which the store-side text/textarea checks coincide
with the validation utility: no `pattern` (the store never applies it), and
`min ≤ max` whenever both bounds are present and active, so the two bound
checks can never fire together (otherwise the store reports the `max`
message where the utility reports the `min` message). -/
def boundsConsistent (f : FormField) : Prop :=
  (f.ftype = FieldType.text ∨ f.ftype = FieldType.textarea) →
    patternOf f.validation = none ∧
    (∀ a b, minOf f.validation = some a → maxOf f.validation = some b →
      a ≠ 0 → b ≠ 0 → a ≤ b)

theorem maxViolation_none_of_min (rule : Option ValidationRule) (v0 : String)
    (m : Int) (hmv : minViolation rule v0 = some m)
    (hbnd : ∀ a b, minOf rule = some a → maxOf rule = some b →
      a ≠ 0 → b ≠ 0 → a ≤ b) :
    maxViolation rule v0 = none := by
  cases rule with
  | none => simp [minViolation] at hmv
  | some r =>
    cases hr : r.min with
    | none => simp [minViolation, hr] at hmv
    | some a =>
      simp only [minViolation, hr] at hmv
      split at hmv
      case isFalse => exact absurd hmv (by simp)
      case isTrue hcond =>
        simp only [Bool.and_eq_true, Bool.not_eq_eq_eq_not, Bool.not_true,
          beq_eq_false_iff_ne, ne_eq, decide_eq_true_eq] at hcond
        obtain ⟨ha0, halen⟩ := hcond
        cases hM : r.max with
        | none => simp [maxViolation, hM]
        | some b =>
          by_cases hb0 : b = 0
          · simp [maxViolation, hM, hb0]
          · have hab : a ≤ b :=
              hbnd a b (by simp [minOf, hr]) (by simp [maxOf, hM]) ha0 hb0
            have hnb : ¬((v0.length : Int) > b) := by omega
            simp [maxViolation, hM, hnb]

theorem textStoreChecks_eq (st : ValidateOutcome) (f : FormField) (v0 : String)
    (hpat : patternOf f.validation = none)
    (hbnd : ∀ a b, minOf f.validation = some a → maxOf f.validation = some b →
      a ≠ 0 → b ≠ 0 → a ≤ b) :
    validateStoreStep.textStoreChecks st f v0 =
      match textChecks f.validation v0 with
      | some e => { errors := setKey st.errors f.name e, isValid := false }
      | none => st := by
  cases hmv : minViolation f.validation v0 with
  | some m =>
    have hmax : maxViolation f.validation v0 = none :=
      maxViolation_none_of_min f.validation v0 m hmv hbnd
    simp [validateStoreStep.textStoreChecks, textChecks, hmv, hmax]
  | none =>
    cases hMv : maxViolation f.validation v0 with
    | some b => simp [validateStoreStep.textStoreChecks, textChecks, hmv, hMv]
    | none =>
      simp [validateStoreStep.textStoreChecks, textChecks, hmv, hMv, hpat]

theorem validateStoreStep_eq (st : ValidateOutcome) (f : FormField)
    (v : Option String) (hc : boundsConsistent f) :
    validateStoreStep st f v =
      match validateField f v with
      | some e => { errors := setKey st.errors f.name e, isValid := false }
      | none => st := by
  cases hrb : (f.required && blankOrMissing v) with
  | true => simp [validateStoreStep, validateField, hrb]
  | false =>
    cases htr : truthy v with
    | false => simp [validateStoreStep, validateField, hrb, htr]
    | true =>
      cases hty : f.ftype with
      | email =>
        simp only [validateStoreStep, validateField, hrb, htr, hty]
        cases he : emailTest (v.getD "") <;> simp [he]
      | phone =>
        simp only [validateStoreStep, validateField, hrb, htr, hty]
        cases hp : phoneTest (v.getD "") <;> simp [hp]
      | text =>
        obtain ⟨hpat, hbnd⟩ := hc (Or.inl hty)
        simp only [validateStoreStep, validateField, hrb, htr, hty]
        simp only [Bool.false_eq_true, if_false, Bool.not_true]
        exact textStoreChecks_eq st f (v.getD "") hpat hbnd
      | textarea =>
        obtain ⟨hpat, hbnd⟩ := hc (Or.inr hty)
        simp only [validateStoreStep, validateField, hrb, htr, hty]
        simp only [Bool.false_eq_true, if_false, Bool.not_true]
        exact textStoreChecks_eq st f (v.getD "") hpat hbnd
      | select => simp [validateStoreStep, validateField, hrb, htr, hty]
      | checkbox => simp [validateStoreStep, validateField, hrb, htr, hty]

theorem foldl_congr_mem {α β : Type} (f g : α → β → α) :
    ∀ (l : List β) (st : α), (∀ x ∈ l, ∀ s, f s x = g s x) →
      List.foldl f st l = List.foldl g st l := by
  intro l
  induction l with
  | nil => intro st _; rfl
  | cons x xs ih =>
    intro st h
    simp only [List.foldl_cons]
    rw [h x (List.mem_cons_self x xs) st]
    exact ih _ (fun y hy s => h y (List.mem_cons_of_mem x hy) s)

/-- C1 (amended): `formActions.validate` installs the same error map and
returns the same Boolean as running `validateField` over every field of the
active config, provided no text/textarea field carries a
`validation.pattern` and `min ≤ max` whenever both bounds are present and
active — `validate` itself never applies the pattern check, and on a double
bound violation it installs the max message where `validateField` returns
the min message. -/
theorem validateAll_eq_runValidateFields (cfg : FormConfig)
    (data : List (String × String))
    (hc : ∀ f ∈ cfg.fields, boundsConsistent f) :
    validateAll cfg data = runValidateFields cfg.fields data := by
  rw [runValidateFields_eq_foldl]
  unfold validateAll
  apply foldl_congr_mem
  intro f hf s
  rw [validateStoreStep_eq s f (lookupKey data f.name) (hc f hf)]
  rfl

/-- A text field carrying a `validation.pattern` that rejects everything. -/
def patternFieldCE : FormField :=
  { name := "a", label := "A", ftype := .text, required := false,
    validation := some { pattern := some (fun _ => false) } }

/-- A config with one pattern-carrying text field. -/
def patternCfgCE : FormConfig := { id := "c1", fields := [patternFieldCE] }

/-- A text field with both bounds active and violated at once
(`min = 5 > max = 2`). -/
def boundsFieldCE : FormField :=
  { name := "b", label := "B", ftype := .text, required := false,
    validation := some { min := some 5, max := some 2 } }

/-- A config with one doubly-violated-bounds text field. -/
def boundsCfgCE : FormConfig := { id := "c2", fields := [boundsFieldCE] }

/-- C1 counterexample: as stated the equivalence fails — `validate` skips
the `validation.pattern` check that `validateField` applies (value `"x"`
passes the store but fails field-by-field validation with
"Invalid format"), and when both length bounds are violated the two sides
install different messages. -/
theorem validateAll_ne_runValidateFields :
    validateAll patternCfgCE [("a", "x")] ≠
      runValidateFields patternCfgCE.fields [("a", "x")] ∧
    validateAll boundsCfgCE [("b", "abc")] ≠
      runValidateFields boundsCfgCE.fields [("b", "abc")] := by
  constructor <;> decide

/-- A required text field with consistent bounds `2 ≤ 10`. -/
def eqWitnessField1 : FormField :=
  { name := "name", label := "Name", ftype := .text, required := true,
    validation := some { min := some 2, max := some 10 } }

/-- A non-required email field. -/
def eqWitnessField2 : FormField :=
  { name := "mail", label := "Mail", ftype := .email, required := false }

/-- A pattern-free config with consistent bounds. -/
def eqWitnessCfg : FormConfig :=
  { id := "cw", fields := [eqWitnessField1, eqWitnessField2] }

/-- Witness for C1 on a concrete pattern-free config with consistent
bounds. -/
theorem validateAll_eq_runValidateFields_witness :
    validateAll eqWitnessCfg [("name", "Jane"), ("mail", "a@b.c")] =
      runValidateFields eqWitnessCfg.fields
        [("name", "Jane"), ("mail", "a@b.c")] := by
  apply validateAll_eq_runValidateFields
  intro f hf
  rcases List.mem_cons.mp hf with rfl | hf2
  · intro _
    refine ⟨rfl, ?_⟩
    intro a b ha hb ha0 hb0
    simp only [eqWitnessField1, minOf, maxOf, Option.some.injEq] at ha hb
    omega
  · rcases List.mem_cons.mp hf2 with rfl | hf3
    · intro hty
      exfalso
      rcases hty with h | h <;> exact absurd h (by decide)
    · exact absurd hf3 (List.not_mem_nil f)

/-! ### C6/C10: the round-robin layout -/

theorem appendAt_length {α : Type} :
    ∀ (i : Nat) (x : α) (gs : List (List α)),
      (appendAt i x gs).length = gs.length := by
  intro i x gs
  induction gs generalizing i with
  | nil => cases i <;> rfl
  | cons g gs ih => cases i with
    | zero => rfl
    | succ j => simp [appendAt, ih]

theorem appendAt_getD_self {α : Type} (i : Nat) (x : α) :
    ∀ gs : List (List α), i < gs.length →
      (appendAt i x gs).getD i [] = gs.getD i [] ++ [x] := by
  induction i with
  | zero =>
    intro gs h
    cases gs with
    | nil => simp at h
    | cons g gs2 => rfl
  | succ j ih =>
    intro gs h
    cases gs with
    | nil => simp at h
    | cons g gs2 =>
      simp only [appendAt, List.getD_cons_succ]
      exact ih gs2 (by simpa using h)

theorem appendAt_getD_ne {α : Type} (i : Nat) (x : α) :
    ∀ (gs : List (List α)) (c : Nat), c ≠ i →
      (appendAt i x gs).getD c [] = gs.getD c [] := by
  intro gs
  induction gs generalizing i with
  | nil => intro c _; cases i <;> rfl
  | cons g gs2 ih =>
    intro c hc
    cases i with
    | zero =>
      cases c with
      | zero => exact absurd rfl hc
      | succ d => rfl
    | succ j =>
      cases c with
      | zero => rfl
      | succ d =>
        simp only [appendAt, List.getD_cons_succ]
        exact ih j d (fun h => hc (by rw [h]))

theorem distRR_foldl_length {α : Type} (cols : Nat) :
    ∀ (l : List (Nat × α)) (gs : List (List α)),
      (List.foldl (fun gs p => appendAt (p.1 % cols) p.2 gs) gs l).length =
        gs.length := by
  intro l
  induction l with
  | nil => intro gs; rfl
  | cons p ps ih =>
    intro gs
    simp only [List.foldl_cons]
    rw [ih, appendAt_length]

theorem distRR_length {α : Type} (cols : Nat) (l : List α) :
    (distRR cols l).length = cols := by
  unfold distRR
  rw [distRR_foldl_length, List.length_replicate]

theorem replicate_nil_getD {α : Type} :
    ∀ (n c : Nat), (List.replicate n ([] : List α)).getD c [] = [] := by
  intro n
  induction n with
  | zero => intro c; cases c <;> rfl
  | succ m ih =>
    intro c
    cases c with
    | zero => rfl
    | succ d => simp only [List.replicate, List.getD_cons_succ]; exact ih d

theorem distRR_aux {α : Type} (cols : Nat) (_hcols : 0 < cols) :
    ∀ (l : List α) (k : Nat) (gs : List (List α)), gs.length = cols →
      ∀ c, c < cols →
        (List.foldl (fun gs p => appendAt (p.1 % cols) p.2 gs) gs
            (List.enumFrom k l)).getD c [] =
          gs.getD c [] ++
            ((List.enumFrom k l).filter
              (fun p => p.1 % cols == c)).map Prod.snd := by
  intro l
  induction l with
  | nil => intro k gs hlen c hc; simp
  | cons x xs ih =>
    intro k gs hlen c hc
    rw [show List.enumFrom k (x :: xs) =
      (k, x) :: List.enumFrom (k + 1) xs from rfl]
    simp only [List.foldl_cons, List.filter_cons]
    by_cases hkc : k % cols = c
    · have h1 : (appendAt (k % cols) x gs).getD c [] = gs.getD c [] ++ [x] := by
        rw [hkc]
        exact appendAt_getD_self c x gs (hlen ▸ hc)
      rw [ih (k + 1) (appendAt (k % cols) x gs)
        (by rw [appendAt_length]; exact hlen) c hc, h1]
      simp [hkc, List.append_assoc]
    · have h1 : (appendAt (k % cols) x gs).getD c [] = gs.getD c [] := by
        exact appendAt_getD_ne (k % cols) x gs c (fun h => hkc h.symm)
      rw [ih (k + 1) (appendAt (k % cols) x gs)
        (by rw [appendAt_length]; exact hlen) c hc, h1]
      simp [hkc]

theorem distRR_getD {α : Type} (cols : Nat) (hcols : 0 < cols) (c : Nat)
    (hc : c < cols) (l : List α) :
    (distRR cols l).getD c [] = rrColumn cols c l := by
  unfold distRR rrColumn
  rw [show l.enum = List.enumFrom 0 l from rfl,
    distRR_aux cols hcols l 0 (List.replicate cols [])
      (List.length_replicate cols []) c hc,
    replicate_nil_getD]
  simp

theorem effColumns_pos (cfg : FormConfig) : 0 < effColumns cfg := by
  unfold effColumns
  cases cfg.layout with
  | none => exact Nat.one_pos
  | some lay =>
    by_cases h : lay.columns = 0
    · simp [h]
    · simp only [beq_iff_eq, h, if_false]
      omega

/-- C6: `getFieldLayout` assigns the field at position `i` of the sorted
order to column `i % columnCount` — column `c` holds exactly the sorted
fields whose index is congruent to `c`, in order. -/
theorem getFieldLayout_round_robin (cfg : FormConfig) (c : Nat)
    (hc : c < effColumns cfg) :
    (getFieldLayout cfg).getD c [] =
      ((sortedFields cfg).enum.filter
        (fun p => p.1 % effColumns cfg == c)).map Prod.snd :=
  distRR_getD (effColumns cfg) (effColumns_pos cfg) c hc (sortedFields cfg)

/-- A plain text field used by the layout scenario. -/
def layoutFieldW (n : String) : FormField :=
  { name := n, label := n, ftype := .text, required := false }

/-- The §8 layout scenario: 7 fields in default order, 3 columns. -/
def layoutCfgW : FormConfig :=
  { id := "c7",
    fields := [layoutFieldW "f0", layoutFieldW "f1", layoutFieldW "f2",
               layoutFieldW "f3", layoutFieldW "f4", layoutFieldW "f5",
               layoutFieldW "f6"],
    layout := some { columns := 3,
                     fieldOrder := ["f0", "f1", "f2", "f3", "f4", "f5", "f6"] } }

/-- Witness for C6: with column count 3 and 7 fields in default order,
columns hold fields [0,3,6], [1,4], [2,5]. -/
theorem getFieldLayout_round_robin_witness :
    ((getFieldLayout layoutCfgW).getD 0 []).map FormField.name =
      ["f0", "f3", "f6"] ∧
    ((getFieldLayout layoutCfgW).getD 1 []).map FormField.name =
      ["f1", "f4"] ∧
    ((getFieldLayout layoutCfgW).getD 2 []).map FormField.name =
      ["f2", "f5"] := by
  refine ⟨?_, ?_, ?_⟩
  · rw [getFieldLayout_round_robin layoutCfgW 0 (by decide)]; decide
  · rw [getFieldLayout_round_robin layoutCfgW 1 (by decide)]; decide
  · rw [getFieldLayout_round_robin layoutCfgW 2 (by decide)]; decide

theorem join_map_nil {α β : Type} :
    ∀ (r : List β) (f : β → List α), (∀ y ∈ r, f y = []) →
      (r.map f).flatten = [] := by
  intro r f
  induction r with
  | nil => intro _; rfl
  | cons c cs ih =>
    intro h
    simp only [List.map_cons, List.flatten_cons,
      h c (List.mem_cons_self c cs), List.nil_append]
    exact ih (fun y hy => h y (List.mem_cons_of_mem c hy))

theorem join_map_ite_single {α : Type} (x : α) (j : Nat) :
    ∀ r : List Nat, j ∈ r → r.Nodup →
      ((r.map (fun c => if j == c then [x] else [])).flatten) = [x] := by
  intro r
  induction r with
  | nil => intro h _; exact absurd h (List.not_mem_nil j)
  | cons c cs ih =>
    intro hmem hnodup
    simp only [List.map_cons, List.flatten_cons]
    rcases List.mem_cons.mp hmem with rfl | h2
    · have hnil : (cs.map (fun c => if j == c then [x] else ([] : List α))).flatten
          = [] := by
        apply join_map_nil
        intro y hy
        have hne : j ≠ y := fun e => (List.nodup_cons.mp hnodup).1 (e ▸ hy)
        simp [hne]
      simp only [beq_self_eq_true, if_true, hnil, List.append_nil]
    · have hne : j ≠ c := fun e =>
        (List.nodup_cons.mp hnodup).1 (e ▸ h2)
      have hbeq : (j == c) = false := by simp [hne]
      simp only [hbeq, Bool.false_eq_true, if_false, List.nil_append]
      exact ih h2 (List.nodup_cons.mp hnodup).2

theorem join_map_append_perm {α β : Type} (f g : β → List α) :
    ∀ r : List β,
      ((r.map (fun c => f c ++ g c)).flatten).Perm
        ((r.map f).flatten ++ (r.map g).flatten) := by
  intro r
  induction r with
  | nil => simp
  | cons c cs ih =>
    simp only [List.map_cons, List.flatten_cons, List.append_assoc]
    exact ((ih.append_left (g c)).trans
      (List.perm_append_comm_assoc _ _ _)).append_left (f c)

theorem enumFrom_append_singleton {α : Type} (x : α) :
    ∀ (l : List α) (k : Nat),
      List.enumFrom k (l ++ [x]) =
        List.enumFrom k l ++ [(k + l.length, x)] := by
  intro l
  induction l with
  | nil => intro k; simp
  | cons y ys ih =>
    intro k
    rw [List.cons_append,
      show List.enumFrom k (y :: (ys ++ [x])) =
        (k, y) :: List.enumFrom (k + 1) (ys ++ [x]) from rfl,
      ih (k + 1),
      show List.enumFrom k (y :: ys) =
        (k, y) :: List.enumFrom (k + 1) ys from rfl]
    simp only [List.cons_append, List.length_cons]
    have harith : k + 1 + ys.length = k + (ys.length + 1) := by omega
    rw [harith]

theorem rrColumn_append {α : Type} (cols c : Nat) (l : List α) (x : α) :
    rrColumn cols c (l ++ [x]) =
      rrColumn cols c l ++ (if l.length % cols == c then [x] else []) := by
  unfold rrColumn
  rw [show (l ++ [x]).enum = List.enumFrom 0 (l ++ [x]) from rfl,
    enumFrom_append_singleton, List.filter_append, List.map_append]
  rw [show List.enumFrom 0 l = l.enum from rfl]
  congr 1
  simp only [Nat.zero_add]
  by_cases h : l.length % cols = c
  · simp [h]
  · simp [h]

theorem succ_div_mod_cases (cols n : Nat) (hcols : 0 < cols) :
    ((n + 1) / cols = n / cols + 1 ∧ (n + 1) % cols = 0 ∧
      n % cols + 1 = cols) ∨
    ((n + 1) / cols = n / cols ∧ (n + 1) % cols = n % cols + 1 ∧
      n % cols + 1 < cols) := by
  have hd := Nat.div_add_mod n cols
  have hm : n % cols < cols := Nat.mod_lt n hcols
  by_cases h : n % cols + 1 = cols
  · left
    have h1 : n + 1 = cols * (n / cols + 1) := by
      rw [Nat.mul_succ]
      omega
    refine ⟨?_, ?_, h⟩
    · rw [h1, Nat.mul_div_cancel_left _ hcols]
    · rw [h1, Nat.mul_mod_right]
  · right
    have hlt : n % cols + 1 < cols := by omega
    have h1 : n + 1 = cols * (n / cols) + (n % cols + 1) := by omega
    refine ⟨?_, ?_, hlt⟩
    · rw [h1, Nat.mul_add_div hcols, Nat.div_eq_of_lt hlt, Nat.add_zero]
    · rw [h1, Nat.mul_add_mod, Nat.mod_eq_of_lt hlt]

theorem rrColumn_length {α : Type} (cols : Nat) (hcols : 0 < cols) (c : Nat)
    (hc : c < cols) :
    ∀ l : List α,
      (rrColumn cols c l).length =
        l.length / cols + (if c < l.length % cols then 1 else 0) := by
  intro l
  induction l using List.reverseRecOn with
  | nil => simp [rrColumn]
  | append_singleton l x ih =>
    rw [rrColumn_append, List.length_append, ih, List.length_append]
    have hite : (if (l.length % cols == c) = true then [x] else
        ([] : List α)).length = if l.length % cols = c then 1 else 0 := by
      by_cases hlc : l.length % cols = c <;> simp [hlc]
    rw [hite]
    simp only [List.length_singleton]
    rcases succ_div_mod_cases cols l.length hcols with ⟨h1, h2, h3⟩ |
      ⟨h1, h2, h3⟩ <;>
      simp only [h1, h2] <;> split_ifs <;> omega

theorem join_map_rrColumn_perm {α : Type} (cols : Nat) (hcols : 0 < cols) :
    ∀ l : List α,
      (((List.range cols).map (fun c => rrColumn cols c l)).flatten).Perm l := by
  intro l
  induction l using List.reverseRecOn with
  | nil =>
    have h : ((List.range cols).map
        (fun c => rrColumn cols c ([] : List α))).flatten = [] :=
      join_map_nil _ _ (fun y _ => by simp [rrColumn])
    rw [h]
  | append_singleton l x ih =>
    have hcong : (List.range cols).map (fun c => rrColumn cols c (l ++ [x])) =
        (List.range cols).map (fun c =>
          rrColumn cols c l ++ (if l.length % cols == c then [x] else [])) :=
      List.map_congr_left (fun c _ => rrColumn_append cols c l x)
    rw [hcong]
    refine (join_map_append_perm _ _ _).trans ?_
    have hsingle : ((List.range cols).map (fun c =>
        if l.length % cols == c then [x] else [])).flatten = [x] :=
      join_map_ite_single x (l.length % cols) (List.range cols)
        (List.mem_range.mpr (Nat.mod_lt _ hcols)) (List.nodup_range cols)
    rw [hsingle]
    exact ih.append_right [x]

theorem distRR_eq_map {α : Type} (cols : Nat) (hcols : 0 < cols)
    (l : List α) :
    distRR cols l = (List.range cols).map (fun c => rrColumn cols c l) := by
  apply List.ext_getElem
  · rw [distRR_length]
    simp
  · intro i h1 h2
    rw [List.getElem_map, List.getElem_range,
      ← List.getD_eq_getElem (distRR cols l) [] h1]
    exact distRR_getD cols hcols i (by rw [distRR_length] at h1; exact h1) l

theorem orderedInsertKey_perm {α : Type} (key : α → Int) (x : α) :
    ∀ l : List α, (orderedInsertKey key x l).Perm (x :: l) := by
  intro l
  induction l with
  | nil => exact List.Perm.refl _
  | cons y ys ih =>
    unfold orderedInsertKey
    by_cases h : key x ≤ key y
    · simp only [h, if_true]
      exact List.Perm.refl _
    · simp only [h, if_false]
      exact (ih.cons y).trans (List.Perm.swap x y ys)

theorem sortByKey_perm {α : Type} (key : α → Int) :
    ∀ l : List α, (sortByKey key l).Perm l := by
  intro l
  induction l with
  | nil => exact List.Perm.refl _
  | cons x xs ih =>
    exact (orderedInsertKey_perm key x (sortByKey key xs)).trans (ih.cons x)

/-- C10: the column grouping of `getFieldLayout` has exactly `effColumns`
columns, their concatenation is a permutation of the config's fields (no
field dropped or duplicated), and any two column lengths differ by at
most 1. -/
theorem getFieldLayout_partition (cfg : FormConfig) :
    (getFieldLayout cfg).length = effColumns cfg ∧
    ((getFieldLayout cfg).flatten).Perm cfg.fields ∧
    (∀ c1 c2, c1 < effColumns cfg → c2 < effColumns cfg →
      ((getFieldLayout cfg).getD c1 []).length ≤
        ((getFieldLayout cfg).getD c2 []).length + 1) := by
  have hpos : 0 < effColumns cfg := effColumns_pos cfg
  refine ⟨distRR_length _ _, ?_, ?_⟩
  · show ((distRR (effColumns cfg) (sortedFields cfg)).flatten).Perm cfg.fields
    rw [distRR_eq_map _ hpos]
    exact (join_map_rrColumn_perm _ hpos _).trans (sortByKey_perm _ _)
  · intro c1 c2 h1 h2
    show ((distRR (effColumns cfg) (sortedFields cfg)).getD c1 []).length ≤
      ((distRR (effColumns cfg) (sortedFields cfg)).getD c2 []).length + 1
    rw [distRR_getD _ hpos c1 h1, distRR_getD _ hpos c2 h2,
      rrColumn_length _ hpos c1 h1, rrColumn_length _ hpos c2 h2]
    split_ifs <;> omega

/-- Witness for C10 at the concrete 7-field, 3-column scenario config. -/
theorem getFieldLayout_partition_witness :
    (getFieldLayout layoutCfgW).length = 3 ∧
    ((getFieldLayout layoutCfgW).flatten).Perm layoutCfgW.fields ∧
    ((getFieldLayout layoutCfgW).getD 0 []).length ≤
      ((getFieldLayout layoutCfgW).getD 2 []).length + 1 := by
  have h := getFieldLayout_partition layoutCfgW
  exact ⟨h.1, h.2.1, h.2.2 0 2 (by decide) (by decide)⟩

end FormApp
